import Mathlib

/-!
# Verification of firefly-hal core claims

Shallow embedding of the firefly-hal repository (Rust) in Lean 4:
the time model and input state from `src/shared.rs`, the gamepad
normalizer from `src/gamepad.rs`, the companion-chip protocol bridge and
FAT name resolver from `src/embedded.rs`, and the hosted backend's
connection ring and channel sends from `src/hosted.rs`.

Machine integers (`u32`, `u8`, `i16`) are modelled as `Nat`/`Int`; where
overflow or underflow matters it is made explicit (e.g. a Rust `-` on
`u32` that can underflow is modelled with an explicit underflow case).
External library calls (the volume manager, the UART, the payload codec,
the OS channel) are modelled as explicit parameters or oracles: the code
in this repository is translated exactly, while the collaborators it
calls are left abstract.
-/

namespace FireflyHal

/-! ## Time model (`src/shared.rs`)

`Instant` and `Duration` both wrap a `u32` tick count (field `ns`).
-/

/-- A moment in time (`Instant` in `src/shared.rs`); `ns` is a `u32`. -/
structure Instant where
  ns : Nat
  deriving DecidableEq, Repr

/-- Difference between two `Instant`s (`Duration` in `src/shared.rs`). -/
structure Duration where
  ns : Nat
  deriving DecidableEq, Repr

/-- `impl Sub for Instant` (`src/shared.rs` lines 43-51): Rust
`self.ns.saturating_sub(rhs.ns)`, i.e. truncated subtraction. -/
def Instant.sub (a b : Instant) : Duration :=
  { ns := a.ns - b.ns }

/-- `impl Sub for Duration` (`src/shared.rs` lines 76-84): Rust
`self.ns - rhs.ns`, plain `u32` subtraction. A result below zero is an
arithmetic underflow (a panic in debug builds, wrap-around in release
builds), modelled here as `none`; `some` is the in-range result. -/
def Duration.sub (a b : Duration) : Option Duration :=
  if b.ns ≤ a.ns then some { ns := a.ns - b.ns } else none

/-! ## Input state (`src/shared.rs`) -/

/-- 2D pointer position (`Pad` in `src/shared.rs`); fields are `i16`. -/
structure Pad where
  x : Int
  y : Int
  deriving DecidableEq, Repr

/-- `InputState` in `src/shared.rs`: optional pointer plus a `u8`
button bitfield. -/
structure InputState where
  pad : Option Pad
  buttons : Nat
  deriving DecidableEq, Repr

/-- `InputState::merge` (`src/shared.rs` lines 281-290): keep `self.pad`
when present, else take `other.pad`; OR the button bitfields. -/
def InputState.merge (a b : InputState) : InputState :=
  { pad :=
      match a.pad with
      | some pad => some pad
      | none => b.pad
    buttons := a.buttons ||| b.buttons }

end FireflyHal

namespace FireflyHal

/-! ## Claim C1: subtraction of time values -/

/-- C1 (amended): `Instant` subtraction saturates at zero (it yields
`a.ns - b.ns` when `b.ns ≤ a.ns` and `0` otherwise), but `Duration`
subtraction does not saturate: it yields `a.ns - b.ns` only when
`b.ns ≤ a.ns` and underflows (panic or wrap, not zero) when
`b.ns > a.ns`. -/
theorem instant_sub_saturates_duration_sub_does_not :
    (∀ a b : Instant, b.ns ≤ a.ns → (Instant.sub a b).ns = a.ns - b.ns) ∧
    (∀ a b : Instant, a.ns ≤ b.ns → (Instant.sub a b).ns = 0) ∧
    (∀ a b : Duration, b.ns ≤ a.ns → Duration.sub a b = some { ns := a.ns - b.ns }) ∧
    (∀ a b : Duration, a.ns < b.ns → Duration.sub a b = none) := by
  refine ⟨fun a b _ => rfl, fun a b h => ?_, fun a b h => ?_, fun a b h => ?_⟩
  · simp [Instant.sub, Nat.sub_eq_zero_of_le h]
  · simp [Duration.sub, h]
  · simp [Duration.sub, Nat.not_le_of_lt h]

/-- Witness for C1's amended theorem at concrete inputs. -/
theorem instant_sub_saturates_duration_sub_does_not_witness :
    (Instant.sub { ns := 5 } { ns := 2 }).ns = 3 ∧
    (Instant.sub { ns := 2 } { ns := 5 }).ns = 0 ∧
    Duration.sub { ns := 5 } { ns := 2 } = some { ns := 3 } ∧
    Duration.sub { ns := 2 } { ns := 5 } = none := by
  obtain ⟨h1, h2, h3, h4⟩ := instant_sub_saturates_duration_sub_does_not
  exact ⟨h1 ⟨5⟩ ⟨2⟩ (by decide), h2 ⟨2⟩ ⟨5⟩ (by decide),
    h3 ⟨5⟩ ⟨2⟩ (by decide), h4 ⟨2⟩ ⟨5⟩ (by decide)⟩

/-- C1 counterexample: the claim states `Duration` subtraction yields 0
when the subtrahend is larger, but `{ns := 0} - {ns := 1}` underflows
(it is not the zero duration). -/
theorem duration_sub_not_saturating_counterexample :
    ¬ Duration.sub { ns := 0 } { ns := 1 } = some { ns := 0 } := by
  decide

/-! ## Claim C9: `InputState::merge` -/

/-- C9: `merge(a, b).buttons` is the bitwise OR of the two button
fields (hence commutative and never clearing a button either source
reported pressed), and `merge(a, b).pad` is `a.pad` when present, else
`b.pad`. -/
theorem merge_buttons_or_pad_left_biased :
    (∀ a b : InputState, (a.merge b).buttons = a.buttons ||| b.buttons) ∧
    (∀ a b : InputState, (a.merge b).buttons = (b.merge a).buttons) ∧
    (∀ (a b : InputState) (i : Nat),
      a.buttons.testBit i ∨ b.buttons.testBit i → (a.merge b).buttons.testBit i) ∧
    (∀ (a b : InputState) (p : Pad), a.pad = some p → (a.merge b).pad = some p) ∧
    (∀ a b : InputState, a.pad = none → (a.merge b).pad = b.pad) := by
  refine ⟨fun a b => rfl, fun a b => Nat.lor_comm _ _, fun a b i h => ?_,
    fun a b p h => ?_, fun a b h => ?_⟩
  · simpa [InputState.merge, Nat.testBit_or] using h
  · simp [InputState.merge, h]
  · simp [InputState.merge, h]

/-- Witness for the C9 theorem at concrete inputs. -/
theorem merge_buttons_or_pad_left_biased_witness :
    (InputState.merge ⟨some ⟨1, 2⟩, 5⟩ ⟨some ⟨3, 4⟩, 3⟩).buttons = 5 ||| 3 ∧
    (InputState.merge ⟨some ⟨1, 2⟩, 5⟩ ⟨some ⟨3, 4⟩, 3⟩).buttons =
      (InputState.merge ⟨some ⟨3, 4⟩, 3⟩ ⟨some ⟨1, 2⟩, 5⟩).buttons ∧
    (InputState.merge ⟨some ⟨1, 2⟩, 5⟩ ⟨some ⟨3, 4⟩, 3⟩).buttons.testBit 1 ∧
    (InputState.merge ⟨some ⟨1, 2⟩, 5⟩ ⟨some ⟨3, 4⟩, 3⟩).pad = some ⟨1, 2⟩ ∧
    (InputState.merge ⟨none, 5⟩ ⟨some ⟨3, 4⟩, 3⟩).pad = some ⟨3, 4⟩ := by
  obtain ⟨h1, h2, h3, h4, h5⟩ := merge_buttons_or_pad_left_biased
  refine ⟨h1 _ _, h2 _ _, h3 _ _ 1 (Or.inr (by decide)), h4 _ _ _ rfl, ?_⟩
  rw [h5 ⟨none, 5⟩ ⟨some ⟨3, 4⟩, 3⟩ rfl]

end FireflyHal

namespace FireflyHal

/-! ## Companion-chip protocol bridge (`src/embedded.rs`)

`FireflyIO::transfer`, `FireflyIO::send` and `FireflyIO::decode`
exchange framed messages with the co-processor over a UART. The UART
and the `firefly_types` codec are external: the request is modelled by
its already-encoded payload bytes, the UART receive side by the byte
stream it will deliver, and `Response::decode` by an arbitrary decoder
function. Bytes are `Nat` values below 256.
-/

/-- Network error variants of the embedded backend, as used by
`FireflyIO` and its callers in `src/embedded.rs`: `Error(&str)` is
`errorMsg`, `OwnedError` wraps a peer-reported code, `UnexpectedResp`
flags protocol desync, and `uartFailure`/`decodeFailure` stand for an
error propagated from the UART driver or the codec. -/
inductive NetErr where
  | errorMsg (s : String)
  | ownedError (code : Nat)
  | unexpectedResp
  | uartFailure
  | decodeFailure (code : Nat)
  deriving DecidableEq, Repr

/-- The `firefly_types::spi::Response` tagged union, as matched on in
`src/embedded.rs`: one variant per request plus a terminal `Error`. -/
inductive SpiResponse where
  | netLocalAddr (addr : List Nat)
  | input (pad : Option (Nat × Nat)) (buttons : Nat)
  | netStarted
  | netStopped
  | netAdvertised
  | netIncoming (addr : List Nat) (msg : List Nat)
  | netNoIncoming
  | netSendStatus (status : Nat)
  | error (code : Nat)
  deriving DecidableEq, Repr

/-- `FireflyIO::transfer` (`src/embedded.rs` lines 434-454), given the
encoded request payload `raw` and the byte stream `rx` the UART will
deliver. Returns the bytes written to the UART and the call's result:

* `u8::try_from(raw.len())` fails for payloads over 255 bytes — the
  too-big error is returned before any byte is written;
* otherwise the frame `[len, payload...]` is written, one length byte
  is read back, a declared length of 0 is the zero-sized-message error,
  and otherwise exactly that many response bytes are read.

A UART read finding the stream exhausted (which in the hardware would
block) is modelled as `uartFailure`; UART writes are modelled as
succeeding, their bytes recorded in the returned trace. -/
def transfer (raw : List Nat) (rx : List Nat) :
    List Nat × Except NetErr (List Nat) :=
  if 255 < raw.length then
    ([], Except.error (NetErr.errorMsg "request payload is too big"))
  else
    let written := raw.length :: raw
    match rx with
    | [] => (written, Except.error NetErr.uartFailure)
    | size :: rest =>
      if size = 0 then
        (written, Except.error (NetErr.errorMsg "received zero-sized message"))
      else if rest.length < size then
        (written, Except.error NetErr.uartFailure)
      else
        (written, Except.ok (rest.take size))

/-- `FireflyIO::send` (`src/embedded.rs` lines 457-466): write the
frame only, never reading a response. Same framing and size check as
`transfer`. -/
def fireflySend (raw : List Nat) : List Nat × Except NetErr Unit :=
  if 255 < raw.length then
    ([], Except.error (NetErr.errorMsg "request payload is too big"))
  else
    (raw.length :: raw, Except.ok ())

/-- `FireflyIO::decode` (`src/embedded.rs` lines 468-478), with the
external `Response::decode` of `firefly_types` abstracted as the
decoder `dec`: an empty buffer is an immediate error, a codec error
propagates, and a decoded `Error` variant is returned as a wrapped
failure, never as a success. -/
def decode (dec : List Nat → Except Nat SpiResponse) (raw : List Nat) :
    Except NetErr SpiResponse :=
  if raw = [] then
    Except.error (NetErr.errorMsg "buffer is empty, cannot decode")
  else
    match dec raw with
    | Except.error e => Except.error (NetErr.decodeFailure e)
    | Except.ok resp =>
      match resp with
      | SpiResponse.error err => Except.error (NetErr.ownedError err)
      | resp => Except.ok resp

/-! ## Claim C2: `transfer` framing -/

/-- C2: a request payload of at most 255 bytes is emitted as a frame
whose first byte is the payload length followed by exactly the payload
bytes; a payload over 255 bytes fails with the too-big error before
anything is written; and a response declaring length 0 fails with the
zero-sized-message error instead of succeeding with an empty payload. -/
theorem transfer_frames_and_rejects :
    (∀ raw rx : List Nat, raw.length ≤ 255 →
      (transfer raw rx).1 = raw.length :: raw) ∧
    (∀ raw rx : List Nat, 255 < raw.length →
      transfer raw rx =
        ([], Except.error (NetErr.errorMsg "request payload is too big"))) ∧
    (∀ raw rest : List Nat, raw.length ≤ 255 →
      (transfer raw (0 :: rest)).2 =
        Except.error (NetErr.errorMsg "received zero-sized message")) := by
  refine ⟨fun raw rx h => ?_, fun raw rx h => ?_, fun raw rest h => ?_⟩
  · have h' : ¬ 255 < raw.length := Nat.not_lt_of_le h
    unfold transfer
    cases rx with
    | nil => simp [h']
    | cons size rest =>
      by_cases hz : size = 0
      · simp [h', hz]
      · by_cases hl : rest.length < size <;> simp [h', hz, hl]
  · simp [transfer, h]
  · simp [transfer, Nat.not_lt_of_le h]

/-- Witness for the C2 theorem at concrete inputs: a 3-byte payload, a
256-byte payload, and a zero length byte in the response. -/
theorem transfer_frames_and_rejects_witness :
    (transfer [7, 8, 9] [2, 4, 5]).1 = [3, 7, 8, 9] ∧
    transfer (List.replicate 256 1) [2, 4, 5] =
      ([], Except.error (NetErr.errorMsg "request payload is too big")) ∧
    (transfer [7, 8, 9] (0 :: [4, 5])).2 =
      Except.error (NetErr.errorMsg "received zero-sized message") := by
  obtain ⟨h1, h2, h3⟩ := transfer_frames_and_rejects
  exact ⟨h1 [7, 8, 9] [2, 4, 5] (by decide),
    h2 (List.replicate 256 1) [2, 4, 5] (by rw [List.length_replicate]; exact Nat.lt_succ_self 255),
    h3 [7, 8, 9] [4, 5] (by decide)⟩

/-! ## Claim C3: `decode` failure behaviour -/

/-- C3: `decode` fails on the empty input; any input the codec decodes
to the `Error` variant is returned as a wrapped failure; and no input
at all makes `decode` return `Ok` carrying the `Error` variant. -/
theorem decode_rejects_empty_and_error_variant :
    (∀ dec : List Nat → Except Nat SpiResponse,
      decode dec [] = Except.error (NetErr.errorMsg "buffer is empty, cannot decode")) ∧
    (∀ (dec : List Nat → Except Nat SpiResponse) (raw : List Nat) (code : Nat),
      raw ≠ [] → dec raw = Except.ok (SpiResponse.error code) →
      decode dec raw = Except.error (NetErr.ownedError code)) ∧
    (∀ (dec : List Nat → Except Nat SpiResponse) (raw : List Nat) (code : Nat),
      decode dec raw ≠ Except.ok (SpiResponse.error code)) := by
  refine ⟨fun dec => rfl, fun dec raw code hne hdec => ?_, fun dec raw code => ?_⟩
  · simp [decode, hne, hdec]
  · unfold decode
    by_cases hne : raw = []
    · simp [hne]
    · simp only [if_neg hne]
      cases hdec : dec raw with
      | error e => simp
      | ok resp => cases resp <;> simp

/-- Witness for the C3 theorem with a concrete decoder that returns the
`Error` variant for every input. -/
theorem decode_rejects_empty_and_error_variant_witness :
    decode (fun _ => Except.ok (SpiResponse.error 7)) [] =
      Except.error (NetErr.errorMsg "buffer is empty, cannot decode") ∧
    decode (fun _ => Except.ok (SpiResponse.error 7)) [1, 2] =
      Except.error (NetErr.ownedError 7) ∧
    decode (fun _ => Except.ok (SpiResponse.error 7)) [1, 2] ≠
      Except.ok (SpiResponse.error 7) := by
  obtain ⟨h1, h2, h3⟩ := decode_rejects_empty_and_error_variant
  exact ⟨h1 _, h2 _ [1, 2] 7 (by decide) rfl, h3 _ [1, 2] 7⟩

end FireflyHal

namespace FireflyHal

/-! ## Gamepad normalizer (`src/gamepad.rs`)

`read_pad` folds the gilrs gamepad state into an optional pointer. The
gilrs gamepad is external; its observable state is captured in
`GamepadState`. The raw axis values are `f32` in the unit range which
`data_to_i16` scales by 1000 and truncates to `i16`; that float
conversion is abstracted by taking the already-scaled integer axis
readings (`none` when gilrs has no data for the axis), which is exactly
the information `read_pad` consumes through `make_point`. -/

/-- The gamepad state consumed by `read_pad` in `src/gamepad.rs`:
the D-pad and stick buttons queried via `is_pressed`, and the four
stick axis readings already scaled to `i16` as by `data_to_i16`. -/
structure GamepadState where
  dpadDown : Bool
  dpadUp : Bool
  dpadLeft : Bool
  dpadRight : Bool
  leftTrigger : Bool
  leftThumb : Bool
  rightThumb : Bool
  leftX : Option Int
  leftY : Option Int
  rightX : Option Int
  rightY : Option Int
  deriving DecidableEq, Repr

/-- `make_point` (`src/gamepad.rs` lines 107-114): a pointer only when
both axes have data. -/
def make_point (x y : Option Int) : Option Pad :=
  match x, y with
  | some x, some y => some { x := x, y := y }
  | _, _ => none

/-- `read_pad` (`src/gamepad.rs` lines 65-105): D-pad directions first
(down, up, left, right, in that order); else the left stick when a
left-stick modifier is held; else the right stick, which counts as a
pointer only when its thumb button is held or either axis is outside
the `-50..=50` dead zone. -/
def read_pad (g : GamepadState) : Option Pad :=
  if g.dpadDown then some { x := 0, y := -1000 }
  else if g.dpadUp then some { x := 0, y := 1000 }
  else if g.dpadLeft then some { x := -1000, y := 0 }
  else if g.dpadRight then some { x := 1000, y := 0 }
  else if g.leftTrigger || g.leftThumb then make_point g.leftX g.leftY
  else
    let pad := make_point g.rightX g.rightY
    if g.rightThumb then pad
    else
      match pad with
      | none => none
      | some p =>
        if (-50 ≤ p.x ∧ p.x ≤ 50) ∧ (-50 ≤ p.y ∧ p.y ≤ 50) then none
        else some p

/-! ## Claim C8: D-pad precedence and right-stick dead zone -/

/-- C8: a held D-pad direction yields its unit-magnitude pointer no
matter what the sticks report (directions checked in the code's order
down, up, left, right); and with no D-pad direction held, no left-stick
modifier held, the right thumb unheld, and both right-stick scaled axes
within `-50..=50`, `read_pad` yields no pointer. -/
theorem read_pad_dpad_precedence_and_dead_zone :
    (∀ g : GamepadState, g.dpadDown = true →
      read_pad g = some { x := 0, y := -1000 }) ∧
    (∀ g : GamepadState, g.dpadDown = false → g.dpadUp = true →
      read_pad g = some { x := 0, y := 1000 }) ∧
    (∀ g : GamepadState, g.dpadDown = false → g.dpadUp = false →
      g.dpadLeft = true → read_pad g = some { x := -1000, y := 0 }) ∧
    (∀ g : GamepadState, g.dpadDown = false → g.dpadUp = false →
      g.dpadLeft = false → g.dpadRight = true →
      read_pad g = some { x := 1000, y := 0 }) ∧
    (∀ (g : GamepadState) (x y : Int),
      g.dpadDown = false → g.dpadUp = false → g.dpadLeft = false →
      g.dpadRight = false → g.leftTrigger = false → g.leftThumb = false →
      g.rightThumb = false → g.rightX = some x → g.rightY = some y →
      -50 ≤ x → x ≤ 50 → -50 ≤ y → y ≤ 50 →
      read_pad g = none) := by
  refine ⟨fun g h => by simp [read_pad, h],
    fun g h1 h2 => by simp [read_pad, h1, h2],
    fun g h1 h2 h3 => by simp [read_pad, h1, h2, h3],
    fun g h1 h2 h3 h4 => by simp [read_pad, h1, h2, h3, h4],
    fun g x y h1 h2 h3 h4 h5 h6 h7 hx hy bx1 bx2 by1 by2 => ?_⟩
  simp [read_pad, h1, h2, h3, h4, h5, h6, h7, hx, hy, make_point,
    bx1, bx2, by1, by2]

/-- Witness for the C8 theorem: D-pad Down held over a wild stick
state, each other direction, and a resting right stick. -/
theorem read_pad_dpad_precedence_and_dead_zone_witness :
    read_pad ⟨true, true, true, true, true, true, true,
        some 900, some 900, some 900, some 900⟩ = some { x := 0, y := -1000 } ∧
    read_pad ⟨false, true, true, true, true, true, true,
        some 900, some 900, some 900, some 900⟩ = some { x := 0, y := 1000 } ∧
    read_pad ⟨false, false, true, true, true, true, true,
        some 900, some 900, some 900, some 900⟩ = some { x := -1000, y := 0 } ∧
    read_pad ⟨false, false, false, true, true, true, true,
        some 900, some 900, some 900, some 900⟩ = some { x := 1000, y := 0 } ∧
    read_pad ⟨false, false, false, false, false, false, false,
        some 900, some 900, some 17, some (-33)⟩ = none := by
  obtain ⟨h1, h2, h3, h4, h5⟩ := read_pad_dpad_precedence_and_dead_zone
  exact ⟨h1 _ rfl, h2 _ rfl rfl, h3 _ rfl rfl rfl, h4 _ rfl rfl rfl rfl,
    h5 _ 17 (-33) rfl rfl rfl rfl rfl rfl rfl rfl rfl (by decide) (by decide)
      (by decide) (by decide)⟩

end FireflyHal

namespace FireflyHal

/-! ## Hosted backend channel sends (`src/hosted.rs`)

`NetworkImpl::send` and `SerialImpl::send` copy the payload into a
`heapless::Vec<u8, 64>` — failing with `OutMessageTooBig` when the
payload is longer than 64 bytes — and only then push it onto the mpsc
channel to the worker thread; a disconnected channel (worker gone) is
`NetThreadDeallocated`. The channel is modelled by the list of messages
enqueued so far plus a flag saying whether the worker end is alive. -/

/-- Network error variants of the hosted backend
(`src/errors.rs` lines 264-275), restricted to those `send` produces. -/
inductive HostedNetErr where
  | netThreadDeallocated
  | outMessageTooBig
  deriving DecidableEq, Repr

/-- `NetworkImpl::send` (`src/hosted.rs` lines 304-313): `addr` is the
peer socket address (abstracted as `Nat`), `out` the messages already
in the outbound channel, `alive` whether the worker still holds the
receiving end. Returns the result and the channel contents after the
call. -/
def networkSend (alive : Bool) (out : List (Nat × List Nat))
    (addr : Nat) (data : List Nat) :
    Except HostedNetErr Unit × List (Nat × List Nat) :=
  if 64 < data.length then
    (Except.error HostedNetErr.outMessageTooBig, out)
  else if alive then
    (Except.ok (), out ++ [(addr, data)])
  else
    (Except.error HostedNetErr.netThreadDeallocated, out)

/-- `SerialImpl::send` (`src/hosted.rs` lines 364-373): identical to
`NetworkImpl::send` but without a peer address. -/
def serialSend (alive : Bool) (out : List (List Nat)) (data : List Nat) :
    Except HostedNetErr Unit × List (List Nat) :=
  if 64 < data.length then
    (Except.error HostedNetErr.outMessageTooBig, out)
  else if alive then
    (Except.ok (), out ++ [data])
  else
    (Except.error HostedNetErr.netThreadDeallocated, out)

/-! ## Claim C10: 64-byte send ceiling -/

/-- C10: on the hosted backend a payload longer than 64 bytes makes
`Network::send` and `Serial::send` fail with `OutMessageTooBig` with
the outbound channel untouched, and for payloads of at most 64 bytes
the size check never fires (the calls never return `OutMessageTooBig`;
they enqueue exactly the payload when the worker is alive). -/
theorem send_rejects_oversized_payload :
    (∀ (alive : Bool) (out : List (Nat × List Nat)) (addr : Nat) (data : List Nat),
      64 < data.length →
      networkSend alive out addr data =
        (Except.error HostedNetErr.outMessageTooBig, out)) ∧
    (∀ (alive : Bool) (out : List (Nat × List Nat)) (addr : Nat) (data : List Nat),
      data.length ≤ 64 →
      (networkSend alive out addr data).1 ≠
        Except.error HostedNetErr.outMessageTooBig) ∧
    (∀ (out : List (Nat × List Nat)) (addr : Nat) (data : List Nat),
      data.length ≤ 64 →
      networkSend true out addr data = (Except.ok (), out ++ [(addr, data)])) ∧
    (∀ (alive : Bool) (out : List (List Nat)) (data : List Nat),
      64 < data.length →
      serialSend alive out data =
        (Except.error HostedNetErr.outMessageTooBig, out)) ∧
    (∀ (alive : Bool) (out : List (List Nat)) (data : List Nat),
      data.length ≤ 64 →
      (serialSend alive out data).1 ≠
        Except.error HostedNetErr.outMessageTooBig) ∧
    (∀ (out : List (List Nat)) (data : List Nat),
      data.length ≤ 64 →
      serialSend true out data = (Except.ok (), out ++ [data])) := by
  refine ⟨fun alive out addr data h => by simp [networkSend, h],
    fun alive out addr data h => ?_,
    fun out addr data h => by simp [networkSend, Nat.not_lt_of_le h],
    fun alive out data h => by simp [serialSend, h],
    fun alive out data h => ?_,
    fun out data h => by simp [serialSend, Nat.not_lt_of_le h]⟩
  · cases alive <;> simp [networkSend, Nat.not_lt_of_le h]
  · cases alive <;> simp [serialSend, Nat.not_lt_of_le h]

/-- Witness for the C10 theorem: a 65-byte payload is rejected with the
channel unchanged; a 3-byte payload goes through. -/
theorem send_rejects_oversized_payload_witness :
    networkSend true [(9, [1])] 5 (List.replicate 65 0) =
      (Except.error HostedNetErr.outMessageTooBig, [(9, [1])]) ∧
    (networkSend true [] 5 [1, 2, 3]).1 ≠
      Except.error HostedNetErr.outMessageTooBig ∧
    networkSend true [] 5 [1, 2, 3] = (Except.ok (), [(5, [1, 2, 3])]) ∧
    serialSend true [[7]] (List.replicate 65 0) =
      (Except.error HostedNetErr.outMessageTooBig, [[7]]) ∧
    (serialSend true [] [1, 2, 3]).1 ≠
      Except.error HostedNetErr.outMessageTooBig ∧
    serialSend true [] [1, 2, 3] = (Except.ok (), [[1, 2, 3]]) := by
  obtain ⟨h1, h2, h3, h4, h5, h6⟩ := send_rejects_oversized_payload
  have hlen : (List.replicate 65 (0 : Nat)).length = 65 := List.length_replicate _ _
  exact ⟨h1 true [(9, [1])] 5 _ (by rw [hlen]; exact Nat.lt_succ_self 64),
    h2 true [] 5 [1, 2, 3] (by decide),
    h3 [] 5 [1, 2, 3] (by decide),
    h4 true [[7]] _ (by rw [hlen]; exact Nat.lt_succ_self 64),
    h5 true [] [1, 2, 3] (by decide),
    h6 [] [1, 2, 3] (by decide)⟩

end FireflyHal

namespace FireflyHal

/-! ## FAT directory/file resolver (`src/embedded.rs`)

`get_short_name`, `open_file` and `DeviceImpl::open_dir` resolve long
file names over the external `embedded_sdmmc` volume manager. The
manager is abstracted: the 8.3 parser `to_short_filename` becomes the
parameter `parse83`, a successful `iterate_dir_lfn` yields the list of
directory entries `entries` (a short name paired with the optional
reconstructed long name, both as byte lists), and the handle table
becomes an explicit `VMState`. Names and short names are byte lists,
so the long-name comparison is byte-for-byte and case-sensitive, as in
the source. -/

/-- The `embedded_sdmmc` error kinds (`src/errors.rs`) that the
resolver produces or propagates; other manager failures are carried
opaquely by `otherErr`. -/
inductive FSError where
  | notFound
  | dirAlreadyOpen
  | tooManyOpenDirs
  | badHandle
  | otherErr (code : Nat)
  deriving DecidableEq, Repr

/-- One directory entry as observed through `iterate_dir_lfn`: the 8.3
short name and, when present, the reconstructed long file name. -/
structure DirEntry where
  shortName : List Nat
  longName : Option (List Nat)
  deriving DecidableEq, Repr

/-- Equality of `Except` results is decidable when both component
types have decidable equality; used to evaluate witnesses. -/
instance {ε α : Type} [DecidableEq ε] [DecidableEq α] :
    DecidableEq (Except ε α) := fun x y =>
  match x, y with
  | Except.ok a, Except.ok b =>
    if h : a = b then isTrue (by rw [h])
    else isFalse (by intro hc; cases hc; exact h rfl)
  | Except.error a, Except.error b =>
    if h : a = b then isTrue (by rw [h])
    else isFalse (by intro hc; cases hc; exact h rfl)
  | Except.ok _, Except.error _ => isFalse (by intro hc; cases hc)
  | Except.error _, Except.ok _ => isFalse (by intro hc; cases hc)

/-- Rust `u8::is_ascii_whitespace`: space, tab, newline, form feed,
carriage return. -/
def isAsciiWhitespace (b : Nat) : Bool :=
  b = 32 || b = 9 || b = 10 || b = 12 || b = 13

/-- Rust `<[u8]>::trim_ascii`: drop ASCII whitespace from both ends. -/
def trimAscii (l : List Nat) : List Nat :=
  ((l.dropWhile isAsciiWhitespace).reverse.dropWhile isAsciiWhitespace).reverse

/-- The closure passed to `iterate_dir_lfn` by `get_short_name`
(`src/embedded.rs` lines 98-106): once a result is found, later
entries are ignored; an entry without a long name never matches; the
first entry whose trimmed long name equals `name` contributes its
short name. -/
def scanStep (name : List Nat) (acc : Option (List Nat)) (e : DirEntry) :
    Option (List Nat) :=
  match acc with
  | some r => some r
  | none =>
    match e.longName with
    | none => none
    | some longName =>
      if trimAscii longName = name then some e.shortName else none

/-- `get_short_name` (`src/embedded.rs` lines 91-111): if `name`
parses as a valid 8.3 short name (`parse83`), return it directly;
otherwise iterate over all directory entries with the scan closure and
return the recorded short name, or `NotFound` when none matched. The
second component instruments the number of directory entries iterated
(the fast path touches none; `iterate_dir_lfn` always visits all). -/
def get_short_name (parse83 : List Nat → Option (List Nat))
    (entries : List DirEntry) (name : List Nat) :
    Except FSError (List Nat) × Nat :=
  match parse83 name with
  | some shortName => (Except.ok shortName, 0)
  | none =>
    match entries.foldl (scanStep name) none with
    | some shortName => (Except.ok shortName, entries.length)
    | none => (Except.error FSError.notFound, entries.length)

/-- Predicate from the specification text: an entry matches when its
trimmed long name equals `name` byte-for-byte (entries without a long
name never match). Used to compare the scan fold against the
first-match reading of the claim. -/
def entryMatches (name : List Nat) (e : DirEntry) : Bool :=
  match e.longName with
  | some longName => trimAscii longName = name
  | none => false

/-- Once the scan closure has recorded a result, the rest of the fold
keeps it. -/
theorem foldl_scanStep_some (name r : List Nat) (entries : List DirEntry) :
    entries.foldl (scanStep name) (some r) = some r := by
  induction entries with
  | nil => rfl
  | cons e rest ih => simpa [scanStep] using ih

/-- The scan fold computes the short name of the first matching entry. -/
theorem foldl_scanStep_eq_find (name : List Nat) (entries : List DirEntry) :
    entries.foldl (scanStep name) none =
      Option.map DirEntry.shortName (entries.find? (entryMatches name)) := by
  induction entries with
  | nil => rfl
  | cons e rest ih =>
    by_cases hm : entryMatches name e
    · unfold entryMatches at hm
      match he : e.longName with
      | none => rw [he] at hm; simp at hm
      | some longName =>
        rw [he] at hm
        simp only [decide_eq_true_eq] at hm
        have hstep : scanStep name none e = some e.shortName := by
          simp [scanStep, he, hm]
        rw [List.foldl_cons, hstep, foldl_scanStep_some,
          List.find?_cons_of_pos _ (by unfold entryMatches; rw [he]; simp [hm])]
        rfl
    · have hstep : scanStep name none e = none := by
        unfold entryMatches at hm
        match he : e.longName with
        | none => simp [scanStep, he]
        | some longName =>
          rw [he] at hm
          simp only [decide_eq_true_eq] at hm
          simp [scanStep, he, hm]
      rw [List.foldl_cons, hstep, ih,
        List.find?_cons_of_neg _ (by simpa [entryMatches] using hm)]

/-! ## Claim C4: `get_short_name` fast path and scan -/

/-- C4: when `name` parses as a valid 8.3 short name, `get_short_name`
returns it with zero directory-entry iterations, for every directory
contents; otherwise it iterates all entries and returns the short name
of the first entry whose trimmed long name equals `name` byte-for-byte
(case-sensitively), or `NotFound` when no entry matches. -/
theorem get_short_name_fast_path_and_first_match :
    (∀ (parse83 : List Nat → Option (List Nat)) (entries : List DirEntry)
      (name shortName : List Nat), parse83 name = some shortName →
      get_short_name parse83 entries name = (Except.ok shortName, 0)) ∧
    (∀ (parse83 : List Nat → Option (List Nat)) (entries : List DirEntry)
      (name : List Nat), parse83 name = none →
      get_short_name parse83 entries name =
        ((match entries.find? (entryMatches name) with
          | some e => Except.ok e.shortName
          | none => Except.error FSError.notFound),
         entries.length)) := by
  constructor
  · intro parse83 entries name shortName h
    simp [get_short_name, h]
  · intro parse83 entries name h
    unfold get_short_name
    rw [h, foldl_scanStep_eq_find]
    cases entries.find? (entryMatches name) <;> rfl

/-- Witness for the C4 theorem: the name `"A"` handled by a parser
that accepts it (fast path over a nonempty directory), and a long name
found by scanning a two-entry directory whose first entry has no long
name — including the case-sensitivity of the match. -/
theorem get_short_name_fast_path_and_first_match_witness :
    get_short_name (fun n => if n = [65] then some [65] else none)
      [⟨[66], some [32, 76, 78]⟩] [65] = (Except.ok [65], 0) ∧
    get_short_name (fun n => if n = [65] then some [65] else none)
      [⟨[66], none⟩, ⟨[67], some [32, 76, 78, 32]⟩] [76, 78] =
      (Except.ok [67], 2) ∧
    get_short_name (fun n => if n = [65] then some [65] else none)
      [⟨[66], none⟩, ⟨[67], some [32, 76, 78, 32]⟩] [108, 110] =
      (Except.error FSError.notFound, 2) := by
  obtain ⟨h1, h2⟩ := get_short_name_fast_path_and_first_match
  refine ⟨h1 _ _ [65] [65] (by decide), ?_, ?_⟩
  · rw [h2 _ [⟨[66], none⟩, ⟨[67], some [32, 76, 78, 32]⟩] [76, 78] (by decide)]
    decide
  · rw [h2 _ [⟨[66], none⟩, ⟨[67], some [32, 76, 78, 32]⟩] [108, 110] (by decide)]
    decide

/-! ## `open_file` (`src/embedded.rs` lines 114-130) -/

/-- `open_file`: resolve the short name with `get_short_name`; when
resolution fails, `close_dir(dir)` then propagate the error; when
resolution succeeds, call the manager's `open_file_in_dir` (abstracted
as `openInDir`, yielding a file handle) and propagate its result. The
returned `Bool` records whether the directory handle is still open when
the call returns (it is open at entry; the source closes it only on the
resolution-failure path). -/
def open_file (parse83 : List Nat → Option (List Nat))
    (entries : List DirEntry)
    (openInDir : List Nat → Except FSError Nat) (name : List Nat) :
    Except FSError Nat × Bool :=
  match (get_short_name parse83 entries name).1 with
  | Except.error e => (Except.error e, false)
  | Except.ok shortName =>
    match openInDir shortName with
    | Except.error e => (Except.error e, true)
    | Except.ok file => (Except.ok file, true)

/-! ## Claim C5: `open_file` failure paths -/

/-- C5 counterexample: resolution succeeds (the parser accepts the
name) but the underlying open of the resolved short name fails; the
call returns an error with the directory handle still open, where the
claim demands that every failure path closes it first. -/
theorem open_file_error_leaves_dir_open_counterexample :
    (open_file (fun _ => some [65]) []
        (fun _ => Except.error FSError.notFound) [65]).1 =
      Except.error FSError.notFound ∧
    ¬ (open_file (fun _ => some [65]) []
        (fun _ => Except.error FSError.notFound) [65]).2 = false := by
  decide

/-- C5 (amended): `open_file` closes the directory handle before
propagating the error exactly on the name-resolution failure path;
when the resolved short name fails to open, the error propagates with
the directory handle left open (its release falls to the caller), and
the success path also leaves it open. -/
theorem open_file_closes_dir_only_on_resolution_failure :
    (∀ (parse83 : List Nat → Option (List Nat)) (entries : List DirEntry)
      (openInDir : List Nat → Except FSError Nat) (name : List Nat)
      (e : FSError),
      (get_short_name parse83 entries name).1 = Except.error e →
      open_file parse83 entries openInDir name = (Except.error e, false)) ∧
    (∀ (parse83 : List Nat → Option (List Nat)) (entries : List DirEntry)
      (openInDir : List Nat → Except FSError Nat) (name shortName : List Nat)
      (e : FSError),
      (get_short_name parse83 entries name).1 = Except.ok shortName →
      openInDir shortName = Except.error e →
      open_file parse83 entries openInDir name = (Except.error e, true)) ∧
    (∀ (parse83 : List Nat → Option (List Nat)) (entries : List DirEntry)
      (openInDir : List Nat → Except FSError Nat) (name shortName : List Nat)
      (file : Nat),
      (get_short_name parse83 entries name).1 = Except.ok shortName →
      openInDir shortName = Except.ok file →
      open_file parse83 entries openInDir name = (Except.ok file, true)) := by
  refine ⟨fun parse83 entries openInDir name e h => ?_,
    fun parse83 entries openInDir name shortName e h1 h2 => ?_,
    fun parse83 entries openInDir name shortName file h1 h2 => ?_⟩
  · unfold open_file
    rw [h]
  · simp [open_file, h1, h2]
  · simp [open_file, h1, h2]

/-- Witness for the amended C5 theorem: a failing resolution closes
the directory; a failing open and a successful open both leave it
open. -/
theorem open_file_closes_dir_only_on_resolution_failure_witness :
    open_file (fun _ => none) [] (fun _ => Except.error FSError.badHandle)
      [65] = (Except.error FSError.notFound, false) ∧
    open_file (fun _ => some [65]) [] (fun _ => Except.error FSError.badHandle)
      [65] = (Except.error FSError.badHandle, true) ∧
    open_file (fun _ => some [65]) [] (fun _ => Except.ok 3)
      [65] = (Except.ok 3, true) := by
  obtain ⟨h1, h2, h3⟩ := open_file_closes_dir_only_on_resolution_failure
  exact ⟨h1 _ [] _ [65] FSError.notFound (by decide),
    h2 _ [] _ [65] [65] FSError.badHandle (by decide) rfl,
    h3 _ [] _ [65] [65] 3 (by decide) rfl⟩

end FireflyHal

namespace FireflyHal

/-! ## Multi-segment descent (`DeviceImpl::open_dir`)

`DeviceImpl::open_dir` (`src/embedded.rs` lines 186-198) opens the
root directory, then for each path segment opens the child via the
`open_dir` helper and closes the previous handle immediately after the
attempt, propagating any error only after that close. The volume
manager's directory-handle table is modelled as `VMState`: the list of
currently open handles plus a fresh-handle counter. Whether each
segment's open succeeds (resolution plus `manager.open_dir`) is an
oracle: the list `segs` gives one outcome per path segment; a failed
open allocates no handle. The trace lists the handle-table state after
every open or close the descent performs. -/

/-- The volume manager's directory-handle table: currently open
handles and the next fresh handle id. -/
structure VMState where
  openDirs : List Nat
  next : Nat
  deriving DecidableEq, Repr

/-- The handle table before the resolution has opened anything. -/
def VMState.empty : VMState := { openDirs := [], next := 0 }

/-- A successful directory open: allocate a fresh handle. -/
def VMState.openNew (s : VMState) : Nat × VMState :=
  (s.next, { openDirs := s.openDirs ++ [s.next], next := s.next + 1 })

/-- `close_dir`: release a handle. -/
def VMState.close (s : VMState) (h : Nat) : VMState :=
  { openDirs := s.openDirs.erase h, next := s.next }

/-- The `for part in path` loop of `DeviceImpl::open_dir`: attempt to
open the next segment (opening a fresh handle on success), close the
current handle, then propagate any error. Returns the result, the
final handle table, and the trace of tables after each open/close. -/
def openDirLoop : List (Except FSError Unit) → Nat → VMState →
    Except FSError Nat × VMState × List VMState
  | [], dir, s => (Except.ok dir, s, [])
  | seg :: rest, dir, s =>
    match seg with
    | Except.error e =>
      let s1 := s.close dir
      (Except.error e, s1, [s1])
    | Except.ok _ =>
      let opened := s.openNew
      let s1 := opened.2
      let s2 := s1.close dir
      let r := openDirLoop rest opened.1 s2
      (r.1, r.2.1, s1 :: s2 :: r.2.2)

/-- `DeviceImpl::open_dir`: open the root directory (outcome
`rootRes`), then descend along the path segments. -/
def device_open_dir (rootRes : Except FSError Unit)
    (segs : List (Except FSError Unit)) :
    Except FSError Nat × VMState × List VMState :=
  match rootRes with
  | Except.error e => (Except.error e, VMState.empty, [])
  | Except.ok _ =>
    let opened := VMState.empty.openNew
    let r := openDirLoop segs opened.1 opened.2
    (r.1, r.2.1, opened.2 :: r.2.2)

/-- Handle discipline of the descent loop: starting from a table whose
only open handle is the current directory, every intermediate table
holds at most two open handles, a successful descent ends with exactly
the returned handle open, and a failed descent ends with no handle
open. -/
theorem openDirLoop_handle_discipline (segs : List (Except FSError Unit)) :
    ∀ (dir : Nat) (s : VMState), s.openDirs = [dir] →
    (∀ st ∈ (openDirLoop segs dir s).2.2, st.openDirs.length ≤ 2) ∧
    (∀ h, (openDirLoop segs dir s).1 = Except.ok h →
      (openDirLoop segs dir s).2.1.openDirs = [h]) ∧
    (∀ e, (openDirLoop segs dir s).1 = Except.error e →
      (openDirLoop segs dir s).2.1.openDirs = []) := by
  induction segs with
  | nil =>
    intro dir s hs
    refine ⟨?_, ?_, ?_⟩
    · intro st hst
      simp only [openDirLoop, List.not_mem_nil] at hst
    · intro h hh
      simp only [openDirLoop] at hh ⊢
      cases hh
      exact hs
    · intro e he
      simp only [openDirLoop] at he
      exact Except.noConfusion he
  | cons seg rest ih =>
    intro dir s hs
    cases seg with
    | error e =>
      have hclose : (s.close dir).openDirs = [] := by
        simp [VMState.close, hs]
      refine ⟨?_, ?_, ?_⟩
      · intro st hst
        simp only [openDirLoop, List.mem_singleton] at hst
        rw [hst, hclose]
        decide
      · intro h hh
        simp only [openDirLoop] at hh
        exact Except.noConfusion hh
      · intro e' he
        simp only [openDirLoop]
        exact hclose
    | ok u =>
      have hopen : (s.openNew).2.openDirs = [dir, s.next] := by
        simp [VMState.openNew, hs]
      have hclose : ((s.openNew).2.close dir).openDirs = [s.next] := by
        simp [VMState.close, hopen, List.erase_cons_head]
      obtain ⟨iha, ihb, ihc⟩ :=
        ih (s.openNew).1 ((s.openNew).2.close dir) hclose
      refine ⟨?_, ?_, ?_⟩
      · intro st hst
        simp only [openDirLoop, List.mem_cons] at hst
        rcases hst with hst | hst | hst
        · rw [hst, hopen]; exact Nat.le_refl 2
        · rw [hst, hclose]; exact Nat.le_succ 1
        · exact iha st hst
      · intro h hh
        simp only [openDirLoop] at hh ⊢
        exact ihb h hh
      · intro e' he
        simp only [openDirLoop] at he ⊢
        exact ihc e' he

/-! ## Claim C6: at most two handles during descent -/

/-- C6: during a multi-segment descent at most two directory handles
opened by the resolution are ever open concurrently (the trace covers
the table after every open and close); on success exactly one handle —
the returned final directory — remains open; on failure at the root or
at any segment, every handle the descent opened has been closed. -/
theorem open_dir_at_most_two_handles (rootRes : Except FSError Unit)
    (segs : List (Except FSError Unit)) :
    (∀ st ∈ (device_open_dir rootRes segs).2.2, st.openDirs.length ≤ 2) ∧
    (∀ h, (device_open_dir rootRes segs).1 = Except.ok h →
      (device_open_dir rootRes segs).2.1.openDirs = [h]) ∧
    (∀ e, (device_open_dir rootRes segs).1 = Except.error e →
      (device_open_dir rootRes segs).2.1.openDirs = []) := by
  cases rootRes with
  | error e =>
    refine ⟨?_, ?_, ?_⟩
    · intro st hst
      simp only [device_open_dir, List.not_mem_nil] at hst
    · intro h hh
      simp only [device_open_dir] at hh
      exact Except.noConfusion hh
    · intro e' he
      rfl
  | ok u =>
    obtain ⟨ha, hb, hc⟩ :=
      openDirLoop_handle_discipline segs VMState.empty.openNew.1
        VMState.empty.openNew.2 rfl
    refine ⟨?_, ?_, ?_⟩
    · intro st hst
      simp only [device_open_dir, List.mem_cons] at hst
      rcases hst with hst | hst
      · rw [hst]; decide
      · exact ha st hst
    · intro h hh
      simp only [device_open_dir] at hh ⊢
      exact hb h hh
    · intro e' he
      simp only [device_open_dir] at he ⊢
      exact hc e' he

/-- Witness for the C6 theorem on the concrete descent
`root/a/b` with a success and with a failure at the last segment:
every traced table stays within two handles, the success returns the
sole remaining handle, and the failure leaves none open. -/
theorem open_dir_at_most_two_handles_witness :
    ((⟨[0, 1], 2⟩ : VMState).openDirs.length ≤ 2) ∧
    (device_open_dir (Except.ok ()) [Except.ok (), Except.ok ()]).2.1.openDirs
      = [2] ∧
    (device_open_dir (Except.ok ())
      [Except.ok (), Except.error FSError.notFound]).2.1.openDirs = [] := by
  obtain ⟨ha1, _, _⟩ :=
    open_dir_at_most_two_handles (Except.ok ()) [Except.ok (), Except.ok ()]
  obtain ⟨_, hb2, _⟩ :=
    open_dir_at_most_two_handles (Except.ok ()) [Except.ok (), Except.ok ()]
  obtain ⟨_, _, hc3⟩ :=
    open_dir_at_most_two_handles (Except.ok ())
      [Except.ok (), Except.error FSError.notFound]
  exact ⟨ha1 ⟨[0, 1], 2⟩ (by decide), hb2 2 (by decide),
    hc3 FSError.notFound (by decide)⟩

end FireflyHal

namespace FireflyHal

/-! ## Connection ring buffer (`src/hosted.rs`)

`RingBuf` (`src/hosted.rs` lines 484-510) tracks the 4 most recently
accepted TCP connections. The stored `TcpStream` values are abstracted
to an arbitrary type `α`; `data` is the 4-slot array of options and
`next` the index the next push overwrites. Reading the tracked
connections (`iter_mut`) never changes `data` or `next`; `push` is the
only mutator, so eviction is independent of any use of the stored
connections. -/

/-- The 4-slot connection ring (`RingBuf` in `src/hosted.rs`). -/
structure RingBuf (α : Type) where
  data : List (Option α)
  next : Nat
  deriving DecidableEq, Repr

/-- `RingBuf::new`: four empty slots, next write at index 0. -/
def RingBuf.new {α : Type} : RingBuf α :=
  { data := [none, none, none, none], next := 0 }

/-- `RingBuf::push`: overwrite slot `next` and advance it modulo 4. -/
def RingBuf.push {α : Type} (r : RingBuf α) (v : α) : RingBuf α :=
  { data := r.data.set r.next (some v), next := (r.next + 1) % 4 }

/-- The ring obtained by pushing the elements of `l` in order onto the
fresh ring. -/
def ringAfter {α : Type} (l : List α) : RingBuf α :=
  l.foldl RingBuf.push RingBuf.new

/-- Specification of one slot of the ring after the pushes `l`: slot
`i` (for `i < 4`) holds the most recently pushed element whose push
ordinal is congruent to `i` modulo 4, i.e. the element at position
`l.length - 1 - ((l.length - 1 - i) % 4)`, and is empty when fewer
than `i + 1` elements were ever pushed. -/
def backVal {α : Type} (l : List α) (i : Nat) : Option α :=
  if i < l.length then l[l.length - 1 - ((l.length - 1 - i) % 4)]? else none

/-- Appending one more push only changes `backVal` at the slot the
push writes (`l.length % 4`). -/
theorem backVal_append_of_ne {α : Type} (l : List α) (x : α) (i : Nat)
    (hi : i < 4) (hne : i ≠ l.length % 4) :
    backVal (l ++ [x]) i = backVal l i := by
  unfold backVal
  have hlen : (l ++ [x]).length = l.length + 1 := by simp
  rw [hlen]
  rcases Nat.lt_or_ge i l.length with hlt | hge
  · rw [if_pos (by omega), if_pos hlt]
    have hidx : l.length + 1 - 1 - ((l.length + 1 - 1 - i) % 4) =
        l.length - 1 - ((l.length - 1 - i) % 4) := by omega
    rw [hidx]
    exact List.getElem?_append_left (by omega)
  · have hne' : i ≠ l.length := by
      intro h
      apply hne
      omega
    rw [if_neg (by omega), if_neg (by omega)]

/-- Appending one more push stores it at slot `l.length % 4`. -/
theorem backVal_append_self {α : Type} (l : List α) (x : α) :
    backVal (l ++ [x]) (l.length % 4) = some x := by
  unfold backVal
  have hlen : (l ++ [x]).length = l.length + 1 := by simp
  rw [hlen, if_pos (by omega)]
  have hidx : l.length + 1 - 1 - ((l.length + 1 - 1 - l.length % 4) % 4) =
      l.length := by omega
  rw [hidx]
  exact List.getElem?_concat_length l x

/-- Ring invariant: after the pushes `l` the write index is
`l.length % 4`, the ring still has 4 slots, and slot `i` holds
`backVal l i`. -/
theorem ringAfter_spec {α : Type} (l : List α) :
    (ringAfter l).next = l.length % 4 ∧
    (ringAfter l).data.length = 4 ∧
    ∀ i, i < 4 → (ringAfter l).data[i]? = some (backVal l i) := by
  induction l using List.reverseRecOn with
  | nil =>
    refine ⟨rfl, rfl, ?_⟩
    intro i hi
    interval_cases i <;> rfl
  | append_singleton l x ih =>
    obtain ⟨ih1, ih2, ih3⟩ := ih
    have hr : ringAfter (l ++ [x]) = (ringAfter l).push x := by
      unfold ringAfter
      rw [List.foldl_append]
      rfl
    have hlen : (l ++ [x]).length = l.length + 1 := by simp
    refine ⟨?_, ?_, ?_⟩
    · rw [hr]
      show ((ringAfter l).next + 1) % 4 = (l ++ [x]).length % 4
      rw [ih1, hlen]
      omega
    · rw [hr]
      show ((ringAfter l).data.set (ringAfter l).next (some x)).length = 4
      rw [List.length_set]
      exact ih2
    · intro i hi
      rw [hr]
      show ((ringAfter l).data.set (ringAfter l).next (some x))[i]? =
        some (backVal (l ++ [x]) i)
      rw [ih1]
      by_cases hie : i = l.length % 4
      · rw [hie, List.getElem?_set_eq_of_lt (some x) (by rw [ih2]; omega),
          backVal_append_self]
      · rw [List.getElem?_set_ne (Ne.symm hie), ih3 i hi,
          backVal_append_of_ne l x i hi hie]

/-! ## Claim C7: pure FIFO 4-slot ring -/

/-- C7: starting from the empty ring, after any sequence of pushes the
ring holds exactly the 4 most recently pushed connections (all of them
when fewer than 4 were pushed): a value sits in some slot exactly when
it was pushed among the last 4 pushes; and once at least 4 pushes have
happened, the slot the next push overwrites holds exactly the
connection pushed 4 pushes earlier — pure FIFO eviction, independent
of any use of the stored connections (`push` is the only operation
that changes the ring). -/
theorem ringbuf_holds_last_four_and_evicts_fifo (α : Type) (l : List α) :
    (∀ x : α,
      (∃ i, i < 4 ∧ (ringAfter l).data[i]? = some (some x)) ↔
      (∃ j, l.length - 4 ≤ j ∧ j < l.length ∧ l[j]? = some x)) ∧
    (4 ≤ l.length →
      (ringAfter l).data[(ringAfter l).next]? = some (l[l.length - 4]?)) := by
  obtain ⟨h1, h2, h3⟩ := ringAfter_spec l
  constructor
  · intro x
    constructor
    · rintro ⟨i, hi4, hget⟩
      rw [h3 i hi4] at hget
      have hbv : backVal l i = some x := Option.some.inj hget
      unfold backVal at hbv
      by_cases hin : i < l.length
      · rw [if_pos hin] at hbv
        exact ⟨l.length - 1 - ((l.length - 1 - i) % 4), by omega, by omega, hbv⟩
      · rw [if_neg hin] at hbv
        exact absurd hbv (by simp)
    · rintro ⟨j, hj1, hj2, hjget⟩
      refine ⟨j % 4, Nat.mod_lt j (by omega), ?_⟩
      rw [h3 (j % 4) (Nat.mod_lt j (by omega))]
      have hbv : backVal l (j % 4) = some x := by
        unfold backVal
        rw [if_pos (by omega)]
        have hidx : l.length - 1 - ((l.length - 1 - j % 4) % 4) = j := by omega
        rw [hidx]
        exact hjget
      rw [hbv]
  · intro h4
    rw [h1, h3 (l.length % 4) (Nat.mod_lt l.length (by omega))]
    have hbv : backVal l (l.length % 4) = l[l.length - 4]? := by
      unfold backVal
      rw [if_pos (by omega)]
      have hidx : l.length - 1 - ((l.length - 1 - l.length % 4) % 4) =
          l.length - 4 := by omega
      rw [hidx]
    rw [hbv]

/-- Witness for the C7 theorem after five pushes `10 20 30 40 50`: the
5th push `50` is stored, and the slot the 6th push would overwrite
holds `20`, the connection pushed 4 pushes earlier. -/
theorem ringbuf_holds_last_four_and_evicts_fifo_witness :
    (∃ i, i < 4 ∧ (ringAfter [10, 20, 30, 40, 50]).data[i]? = some (some 50)) ∧
    (ringAfter [10, 20, 30, 40, 50]).data[(ringAfter [10, 20, 30, 40, 50]).next]?
      = some (([10, 20, 30, 40, 50] : List Nat)[5 - 4]?) := by
  obtain ⟨h1, h2⟩ :=
    ringbuf_holds_last_four_and_evicts_fifo Nat [10, 20, 30, 40, 50]
  exact ⟨(h1 50).mpr ⟨4, by decide, by decide, by decide⟩, h2 (by decide)⟩

end FireflyHal
